import Mathlib

/-!
Shallow embedding of the windowed stats aggregation engine of the `netstats`
repository (`src/netstats/src/tui_plotter.rs`, used from
`src/netstats/src/main.rs`).

Modelling choices:
* Rust `usize` counters are modelled as `Nat` (the data model declares them
  unsigned integers; `window_size` is unbounded above).
* Rust `f64` sample values and elapsed times are modelled as exact rationals
  `ℚ`; every float produced by the code is `(s as f64)` or
  `(s as f64) / 1024.0` for a packet size `s`, and division by the power of
  two `1024.0` is exact in binary floating point, so `ℚ` is a faithful model
  for all in-range sizes.
* `Instant::now()` monotonic clock reads are modelled by passing the elapsed
  time (`now - start_time`, in seconds) as an explicit argument to
  `updateStats`; `start_time` itself is therefore normalised away.
* `VecDeque` is modelled as `List` with `push_back` appending at the end and
  `pop_front` dropping the head.
-/

/-- `NetworkStats` (tui_plotter.rs, lines 23-27): cumulative counters. -/
structure NetworkStats where
  total_bytes : Nat
  current_throughput : Nat
  packets_captured : Nat
deriving Repr, DecidableEq

/-- `Default for NetworkStats` (tui_plotter.rs, lines 29-37). -/
def NetworkStats.default : NetworkStats :=
  { total_bytes := 0, current_throughput := 0, packets_captured := 0 }

/-- `DataPoint` (tui_plotter.rs, lines 39-42): one sample, a time/value pair
of `f64`, modelled as exact rationals. -/
structure DataPoint where
  time : ℚ
  value : ℚ
deriving Repr, DecidableEq

/-- `AppState` (tui_plotter.rs, lines 44-52).  `start_time` is normalised
away (clock reads are passed to `updateStats` explicitly); `last_update`
stores the elapsed time of the most recent update. -/
structure AppState where
  stats : NetworkStats
  throughput_history : List DataPoint
  packet_size_history : List DataPoint
  last_update : ℚ
  running : Bool
  window_size : Nat
deriving Repr, DecidableEq

/-- `Default for AppState` (tui_plotter.rs, lines 54-66): empty histories,
`running = true`, `window_size = 60`. -/
def AppState.default : AppState :=
  { stats := NetworkStats.default
    throughput_history := []
    packet_size_history := []
    last_update := 0
    running := true
    window_size := 60 }

/-- The `while len > window_size { pop_front }` loops of `update_stats`
(tui_plotter.rs, lines 94-100): drop elements from the front while the
length exceeds the window bound. -/
def trimFront (window_size : Nat) (l : List DataPoint) : List DataPoint :=
  if _h : window_size < l.length then trimFront window_size l.tail else l
termination_by l.length
decreasing_by
  simp only [List.length_tail]
  omega

/-- `AppState::update_stats` (tui_plotter.rs, lines 73-103).  `elapsed` is
the monotonic clock reading `now - start_time` in seconds. -/
def updateStats (st : AppState) (packet_size : Nat) (elapsed : ℚ) : AppState :=
  let stats :=
    { total_bytes := st.stats.total_bytes + packet_size
      packets_captured := st.stats.packets_captured + 1
      current_throughput := packet_size }
  let th := st.throughput_history ++ [{ time := elapsed, value := (packet_size : ℚ) / 1024 }]
  let ps := st.packet_size_history ++ [{ time := elapsed, value := (packet_size : ℚ) }]
  { st with
    stats := stats
    throughput_history := trimFront st.window_size th
    packet_size_history := trimFront st.window_size ps
    last_update := elapsed }

/-- The `'+'` key arm of `run_app` (tui_plotter.rs, line 168):
`window_size = window_size.saturating_add(10)`. -/
def widenWindow (st : AppState) : AppState :=
  { st with window_size := st.window_size + 10 }

/-- The `'-'` key arm of `run_app` (tui_plotter.rs, line 171):
`window_size = window_size.saturating_sub(10).max(10)` (Nat subtraction is
saturating). -/
def narrowWindow (st : AppState) : AppState :=
  { st with window_size := max (st.window_size - 10) 10 }

/-- A run of `record_packet` calls: fold `updateStats` over a list of
(packet size, elapsed time) pairs, in arrival order. -/
def runPackets (st : AppState) (calls : List (Nat × ℚ)) : AppState :=
  calls.foldl (fun s c => updateStats s c.1 c.2) st

/-- The key presses `run_app` distinguishes (tui_plotter.rs, lines 162-174). -/
inductive KeyCode where
  | charQ
  | charPlus
  | charMinus
  | other
deriving Repr, DecidableEq

/-- The `match key.code` block of `run_app` (tui_plotter.rs, lines 162-174).
Returns the mutated state and whether the function returned (`'q'` does
`return Ok(())` immediately). -/
def handleKey (st : AppState) (k : KeyCode) : AppState × Bool :=
  match k with
  | .charQ => ({ st with running := false }, true)
  | .charPlus => (widenWindow st, false)
  | .charMinus => (narrowWindow st, false)
  | .other => (st, false)

/-- The outcome of one `event::poll(100ms)` in `run_app`: either the timeout
elapsed with no input, or a key event was read. -/
inductive LoopEvent where
  | timeout
  | key (k : KeyCode)
deriving Repr, DecidableEq

/-- The `run_app` loop (tui_plotter.rs, lines 156-184), with the sequence of
poll outcomes as explicit fuel.  Each entered iteration first performs one
`terminal.draw`, then handles the poll outcome, then checks `running` and
breaks if it is false.  Returned: the final state and the number of draws
performed.  An exhausted event list ends the run with the loop still live. -/
def runApp (st : AppState) : List LoopEvent → AppState × Nat
  | [] => (st, 0)
  | e :: rest =>
    match e with
    | .timeout =>
      if st.running then
        let r := runApp st rest
        (r.1, r.2 + 1)
      else (st, 1)
    | .key k =>
      let hk := handleKey st k
      if hk.2 then (hk.1, 1)
      else if hk.1.running then
        let r := runApp hk.1 rest
        (r.1, r.2 + 1)
      else (hk.1, 1)

/-- An event acting on the shared aggregator state: a captured packet
(main.rs packet loop calling `update_stats`) or a window adjustment from the
UI thread (`run_app` key arms). -/
inductive AggEvent where
  | packet (size : Nat) (elapsed : ℚ)
  | widen
  | narrow
deriving Repr, DecidableEq

/-- Apply one aggregator event. -/
def applyEvent (st : AppState) : AggEvent → AppState
  | .packet size elapsed => updateStats st size elapsed
  | .widen => widenWindow st
  | .narrow => narrowWindow st

/-- Run a lock-serialised sequence of aggregator events. -/
def runTrace (st : AppState) (evs : List AggEvent) : AppState :=
  evs.foldl applyEvent st

/-! ### Helper lemmas about the trimming loop -/

/-- The trimming while-loop drops exactly the front overflow: it is
`List.drop` of the excess length. -/
theorem trimFront_eq_drop (w : Nat) (l : List DataPoint) :
    trimFront w l = l.drop (l.length - w) := by
  rw [trimFront]
  split
  · next h =>
    rw [trimFront_eq_drop w l.tail, ← List.drop_one, List.drop_drop]
    congr 1
    simp only [List.length_drop, List.length_tail]
    omega
  · next h =>
    have : l.length - w = 0 := by omega
    rw [this, List.drop_zero]
termination_by l.length
decreasing_by
  simp only [List.length_tail]
  omega

/-- After trimming, the length is the minimum of the old length and the
window bound. -/
theorem length_trimFront (w : Nat) (l : List DataPoint) :
    (trimFront w l).length = min l.length w := by
  rw [trimFront_eq_drop, List.length_drop]
  omega

/-- Trimming commutes with projecting a field out of every sample. -/
theorem map_trimFront (f : DataPoint → ℚ) (w : Nat) (l : List DataPoint) :
    (trimFront w l).map f = (l.map f).drop (l.length - w) := by
  rw [trimFront_eq_drop, List.map_drop]

/-- With a positive window bound, trimming a freshly appended sample list
keeps the appended sample as the last element. -/
theorem getLast?_trimFront_concat (w : Nat) (hw : 1 ≤ w) (l : List DataPoint)
    (x : DataPoint) : (trimFront w (l ++ [x])).getLast? = some x := by
  rw [trimFront_eq_drop]
  have hlen : (l ++ [x]).length - w ≤ l.length := by
    simp only [List.length_append, List.length_singleton]
    omega
  rw [List.drop_append_of_le_length hlen, List.getLast?_concat]

/-- Trimming yields a sublist (needed to transport sortedness). -/
theorem trimFront_sublist (w : Nat) (l : List DataPoint) :
    (trimFront w l).Sublist l := by
  rw [trimFront_eq_drop]
  exact List.drop_sublist _ l

/-! ### Per-call facts about update_stats -/

/-- One `update_stats` call leaves both history lengths within the window
bound (the trimming loops run until the bound holds). -/
theorem updateStats_window_bound (st : AppState) (s : Nat) (t : ℚ) :
    (updateStats st s t).throughput_history.length ≤ (updateStats st s t).window_size ∧
    (updateStats st s t).packet_size_history.length ≤ (updateStats st s t).window_size := by
  simp only [updateStats, length_trimFront, List.length_append, List.length_singleton]
  constructor <;> omega

/-- A run preserves the window bound on both histories. -/
theorem runPackets_window_bound (calls : List (Nat × ℚ)) (st : AppState)
    (hth : st.throughput_history.length ≤ st.window_size)
    (hps : st.packet_size_history.length ≤ st.window_size) :
    (runPackets st calls).throughput_history.length ≤ (runPackets st calls).window_size ∧
    (runPackets st calls).packet_size_history.length ≤ (runPackets st calls).window_size := by
  induction calls generalizing st with
  | nil => exact ⟨hth, hps⟩
  | cons c rest ih =>
    simp only [runPackets, List.foldl_cons] at *
    exact ih (updateStats st c.1 c.2)
      (updateStats_window_bound st c.1 c.2).1 (updateStats_window_bound st c.1 c.2).2

/-- A run adds the recorded sizes to `total_bytes` and the call count to
`packets_captured`. -/
theorem runPackets_counters (calls : List (Nat × ℚ)) (st : AppState) :
    (runPackets st calls).stats.total_bytes
        = st.stats.total_bytes + (calls.map Prod.fst).sum ∧
    (runPackets st calls).stats.packets_captured
        = st.stats.packets_captured + calls.length := by
  induction calls generalizing st with
  | nil => simp [runPackets]
  | cons c rest ih =>
    simp only [runPackets, List.foldl_cons, List.map_cons, List.sum_cons, List.length_cons] at *
    obtain ⟨h1, h2⟩ := ih (updateStats st c.1 c.2)
    refine ⟨?_, ?_⟩
    · rw [h1]
      simp only [updateStats]
      omega
    · rw [h2]
      simp only [updateStats]
      omega

/-- Sortedness invariant for sample times: if both histories are
time-sorted, every stored time is below every upcoming stamp, and the
upcoming stamps are pairwise non-decreasing, then after the run both
histories are still time-sorted. -/
theorem runPackets_sorted_times (calls : List (Nat × ℚ)) (st : AppState)
    (hsth : (st.throughput_history.map DataPoint.time).Pairwise (· ≤ ·))
    (hsps : (st.packet_size_history.map DataPoint.time).Pairwise (· ≤ ·))
    (hub_th : ∀ x ∈ st.throughput_history.map DataPoint.time, ∀ c ∈ calls, x ≤ c.2)
    (hub_ps : ∀ x ∈ st.packet_size_history.map DataPoint.time, ∀ c ∈ calls, x ≤ c.2)
    (hpw : (calls.map Prod.snd).Pairwise (· ≤ ·)) :
    ((runPackets st calls).throughput_history.map DataPoint.time).Pairwise (· ≤ ·) ∧
    ((runPackets st calls).packet_size_history.map DataPoint.time).Pairwise (· ≤ ·) := by
  induction calls generalizing st with
  | nil => exact ⟨hsth, hsps⟩
  | cons c rest ih =>
    simp only [runPackets, List.foldl_cons] at *
    simp only [List.map_cons, List.pairwise_cons] at hpw
    have happ_th : ((st.throughput_history.map DataPoint.time) ++ [c.2]).Pairwise (· ≤ ·) := by
      rw [List.pairwise_append]
      refine ⟨hsth, List.pairwise_singleton _ _, ?_⟩
      intro x hx y hy
      rw [List.mem_singleton] at hy
      subst hy
      exact hub_th x hx c (List.mem_cons_self c rest)
    have happ_ps : ((st.packet_size_history.map DataPoint.time) ++ [c.2]).Pairwise (· ≤ ·) := by
      rw [List.pairwise_append]
      refine ⟨hsps, List.pairwise_singleton _ _, ?_⟩
      intro x hx y hy
      rw [List.mem_singleton] at hy
      subst hy
      exact hub_ps x hx c (List.mem_cons_self c rest)
    set st' := updateStats st c.1 c.2 with hst'
    have hth' : st'.throughput_history.map DataPoint.time
        = ((st.throughput_history.map DataPoint.time) ++ [c.2]).drop
            (st.throughput_history.length + 1 - st.window_size) := by
      rw [hst']
      simp [updateStats, map_trimFront]
    have hps' : st'.packet_size_history.map DataPoint.time
        = ((st.packet_size_history.map DataPoint.time) ++ [c.2]).drop
            (st.packet_size_history.length + 1 - st.window_size) := by
      rw [hst']
      simp [updateStats, map_trimFront]
    apply ih st'
    · rw [hth']
      exact happ_th.sublist (List.drop_sublist _ _)
    · rw [hps']
      exact happ_ps.sublist (List.drop_sublist _ _)
    · intro x hx c' hc'
      rw [hth'] at hx
      have hx' := (List.drop_sublist _ _).subset hx
      rcases List.mem_append.1 hx' with h | h
      · exact hub_th x h c' (List.mem_cons_of_mem c hc')
      · rw [List.mem_singleton] at h
        subst h
        exact hpw.1 c'.2 (List.mem_map_of_mem Prod.snd hc')
    · intro x hx c' hc'
      rw [hps'] at hx
      have hx' := (List.drop_sublist _ _).subset hx
      rcases List.mem_append.1 hx' with h | h
      · exact hub_ps x h c' (List.mem_cons_of_mem c hc')
      · rw [List.mem_singleton] at h
        subst h
        exact hpw.1 c'.2 (List.mem_map_of_mem Prod.snd hc')
    · exact hpw.2

/-- Alignment invariant: a packet event appends samples with the same
elapsed time to both histories and trims both against the same
`window_size`, and window adjustments leave both alone; so the lists of
sample times of the two histories stay equal along any event trace. -/
theorem runTrace_times_eq (evs : List AggEvent) (st : AppState)
    (h : st.throughput_history.map DataPoint.time
        = st.packet_size_history.map DataPoint.time) :
    (runTrace st evs).throughput_history.map DataPoint.time
      = (runTrace st evs).packet_size_history.map DataPoint.time := by
  induction evs generalizing st with
  | nil => exact h
  | cons e rest ih =>
    simp only [runTrace, List.foldl_cons] at *
    apply ih
    cases e with
    | packet s t =>
      have hlen : st.throughput_history.length = st.packet_size_history.length := by
        have := congrArg List.length h
        simpa using this
      simp only [applyEvent, updateStats, map_trimFront, List.map_append,
        List.length_append, List.length_singleton, List.map_cons, List.map_nil]
      rw [h, hlen]
    | widen => simpa [applyEvent, widenWindow] using h
    | narrow => simpa [applyEvent, narrowWindow] using h

/-- A sequence of `record_packet` calls is the same as the corresponding
packet-event trace. -/
theorem runPackets_eq_runTrace (st : AppState) (calls : List (Nat × ℚ)) :
    runPackets st calls = runTrace st (calls.map fun c => AggEvent.packet c.1 c.2) := by
  rw [runTrace, List.foldl_map]
  rfl

/-! ### The claims -/

/-- Claim C1: for every sequence of `record_packet` (`update_stats`) calls
starting from the initial state, after each call both histories respect the
window bound: `len(throughput_history) ≤ window_size` and
`len(packet_size_history) ≤ window_size`.  Every prefix of a call sequence
is itself a call sequence, so quantifying over all sequences covers the
state after each individual call. -/
theorem record_packet_history_bounded (calls : List (Nat × ℚ)) :
    (runPackets AppState.default calls).throughput_history.length
        ≤ (runPackets AppState.default calls).window_size ∧
    (runPackets AppState.default calls).packet_size_history.length
        ≤ (runPackets AppState.default calls).window_size :=
  runPackets_window_bound calls AppState.default
    (by simp [AppState.default]) (by simp [AppState.default])

/-- Claim C2: for every sequence of `record_packet` (`update_stats`) calls
from the initial state, `total_bytes` equals the sum of all recorded packet
sizes and `packets_captured` equals the number of calls. -/
theorem record_packet_counters_correct (calls : List (Nat × ℚ)) :
    (runPackets AppState.default calls).stats.total_bytes = (calls.map Prod.fst).sum ∧
    (runPackets AppState.default calls).stats.packets_captured = calls.length := by
  have h := runPackets_counters calls AppState.default
  simpa [AppState.default, NetworkStats.default] using h

/-- Claim C4: both window-adjustment arms compute `max(10, window_size + delta)`
for their delta (`+10` and `-10`), and from the default 60 six decrements
reach the floor 10 and a seventh stays there. -/
theorem adjust_window_floor_ten :
    (∀ st : AppState,
        ((widenWindow st).window_size : ℤ) = max 10 ((st.window_size : ℤ) + 10) ∧
        ((narrowWindow st).window_size : ℤ) = max 10 ((st.window_size : ℤ) - 10)) ∧
    (narrowWindow^[6] AppState.default).window_size = 10 ∧
    (narrowWindow^[7] AppState.default).window_size = 10 := by
  refine ⟨fun st => ⟨?_, ?_⟩, ?_, ?_⟩
  · simp only [widenWindow]
    omega
  · simp only [narrowWindow]
    omega
  · rfl
  · rfl

/-- Claim C5: scenario — from the initial state with `window_size` set to 2,
recording packets of sizes 100, 200, 300 leaves `packet_size_history` with
exactly the two samples of values 200 and 300 in that order,
`total_bytes = 600` and `packets_captured = 3`. -/
theorem scenario_window_two :
    ((runPackets { AppState.default with window_size := 2 }
        [(100, 1), (200, 2), (300, 3)]).packet_size_history.map DataPoint.value
      = [200, 300]) ∧
    (runPackets { AppState.default with window_size := 2 }
        [(100, 1), (200, 2), (300, 3)]).stats.total_bytes = 600 ∧
    (runPackets { AppState.default with window_size := 2 }
        [(100, 1), (200, 2), (300, 3)]).stats.packets_captured = 3 := by
  simp only [runPackets, List.foldl_cons, List.foldl_nil, updateStats, trimFront_eq_drop,
    AppState.default, NetworkStats.default]
  decide

/-- Trace for refuting one-at-a-time eviction: twelve packets recorded at
the default window of 60, then five `-` key presses shrinking the window to
10, leaving 12 stored samples against a bound of 10. -/
def shrinkTrace : List AggEvent :=
  [.packet 1 0, .packet 1 0, .packet 1 0, .packet 1 0, .packet 1 0, .packet 1 0,
   .packet 1 0, .packet 1 0, .packet 1 0, .packet 1 0, .packet 1 0, .packet 1 0,
   .narrow, .narrow, .narrow, .narrow, .narrow]

/-- Claim C3 (counterexample): after `shrinkTrace` the state holds 12
samples with `window_size = 10`; the very next `update_stats` call leaves
only 10 samples, strictly fewer than before the call.  Under the claimed
"at most one element trimmed per call" the length could never decrease
(one append, at most one removal), so the claim as stated is false: the
call trimmed three elements at once. -/
theorem lazy_eviction_counterexample :
    (runTrace AppState.default shrinkTrace).packet_size_history.length = 12 ∧
    (runTrace AppState.default shrinkTrace).window_size = 10 ∧
    (updateStats (runTrace AppState.default shrinkTrace) 1 0).packet_size_history.length = 10 ∧
    (updateStats (runTrace AppState.default shrinkTrace) 1 0).packet_size_history.length
      < (runTrace AppState.default shrinkTrace).packet_size_history.length := by
  simp only [shrinkTrace, runTrace, List.foldl_cons, List.foldl_nil, applyEvent,
    updateStats, trimFront_eq_drop, narrowWindow, AppState.default, NetworkStats.default]
  decide

/-- Claim C3 (amended): eviction happens only at update time — a window
adjustment by itself removes nothing — and each `update_stats` call trims
from the front as many elements as its while-loop needs: afterwards each
history length equals `min (old length + 1) window_size`.  So after a window
shrink the histories converge to the new bound at the very next update call,
by a full truncation within that one call — not one element per call over
several calls. -/
theorem eviction_full_trim_per_update (st : AppState) (s : Nat) (t : ℚ) :
    (narrowWindow st).throughput_history = st.throughput_history ∧
    (narrowWindow st).packet_size_history = st.packet_size_history ∧
    (updateStats st s t).throughput_history.length
        = min (st.throughput_history.length + 1) st.window_size ∧
    (updateStats st s t).packet_size_history.length
        = min (st.packet_size_history.length + 1) st.window_size := by
  refine ⟨rfl, rfl, ?_, ?_⟩ <;>
    simp only [updateStats, length_trimFront, List.length_append, List.length_singleton]

/-- Claim C6: each recorded packet of size `s` appends to
`throughput_history` a sample of value exactly `s / 1024` (KiB) and to
`packet_size_history` a sample of value `s` (bytes); with a positive window
bound the appended sample is the last element after trimming.  `f64`
division by the power of two 1024.0 is exact, so the rational model is
exact for every in-range size. -/
theorem throughput_sample_kib_value (st : AppState) (s : Nat) (t : ℚ)
    (hw : 1 ≤ st.window_size) :
    (updateStats st s t).throughput_history.getLast?
        = some { time := t, value := (s : ℚ) / 1024 } ∧
    (updateStats st s t).packet_size_history.getLast?
        = some { time := t, value := (s : ℚ) } := by
  constructor <;>
    · simp only [updateStats]
      exact getLast?_trimFront_concat st.window_size hw _ _

/-- Witness for C6 at the spec's example: a packet of 2048 bytes recorded
from the initial state yields a throughput sample of value exactly 2. -/
theorem throughput_sample_kib_value_witness :
    1 ≤ AppState.default.window_size ∧
    (updateStats AppState.default 2048 0).throughput_history.getLast?
        = some { time := 0, value := 2 } ∧
    (updateStats AppState.default 2048 0).packet_size_history.getLast?
        = some { time := 0, value := 2048 } := by
  have h := throughput_sample_kib_value AppState.default 2048 0 (by decide)
  refine ⟨by decide, ?_, ?_⟩
  · rw [h.1]
    norm_num
  · rw [h.2]
    norm_num

/-- Claim C7: under the hypothesis that successive monotonic-clock readings
are non-decreasing, after any sequence of `record_packet` calls from the
initial state the sample times in each history are non-decreasing from
front to back.  Every prefix of such a sequence again satisfies the
hypothesis, so this covers the state after every call. -/
theorem sample_times_monotone (calls : List (Nat × ℚ))
    (hmono : List.Chain' (· ≤ ·) (calls.map Prod.snd)) :
    List.Chain' (· ≤ ·)
        ((runPackets AppState.default calls).throughput_history.map DataPoint.time) ∧
    List.Chain' (· ≤ ·)
        ((runPackets AppState.default calls).packet_size_history.map DataPoint.time) := by
  have hpw : (calls.map Prod.snd).Pairwise (· ≤ ·) := List.chain'_iff_pairwise.1 hmono
  have h := runPackets_sorted_times calls AppState.default
    (by simp [AppState.default]) (by simp [AppState.default])
    (by simp [AppState.default]) (by simp [AppState.default]) hpw
  exact ⟨h.1.chain', h.2.chain'⟩

/-- Witness for C7 on the concrete call sequence (100 B at t = 1, 200 B at
t = 2): the clock readings are non-decreasing and so are the stored times. -/
theorem sample_times_monotone_witness :
    List.Chain' (· ≤ ·) (([((100 : Nat), (1 : ℚ)), (200, 2)]).map Prod.snd) ∧
    List.Chain' (· ≤ ·)
        ((runPackets AppState.default [((100 : Nat), (1 : ℚ)), (200, 2)]).throughput_history.map
          DataPoint.time) ∧
    List.Chain' (· ≤ ·)
        ((runPackets AppState.default [((100 : Nat), (1 : ℚ)), (200, 2)]).packet_size_history.map
          DataPoint.time) :=
  ⟨by norm_num [List.chain'_cons, List.chain'_singleton],
    (sample_times_monotone _ (by norm_num [List.chain'_cons, List.chain'_singleton])).1,
    (sample_times_monotone _ (by norm_num [List.chain'_cons, List.chain'_singleton])).2⟩

/-- Claim C8: when the loop's input poll yields the quit key `'q'`, that
same iteration sets `running` to false and `run_app` returns immediately:
only the single draw that opened the iteration has happened, and the
remaining poll outcomes are never consumed, whatever they are. -/
theorem quit_key_immediate_stop (st : AppState) (rest : List LoopEvent) :
    runApp st (LoopEvent.key KeyCode.charQ :: rest) = ({ st with running := false }, 1) := by
  simp [runApp, handleKey]

/-- Claim C9: `update_stats` is modelled as a total Lean function on every
`Nat` size — it cannot fail on its legal input domain — and size 0 is legal:
it contributes a zero-valued sample to both histories, adds nothing to
`total_bytes`, and still counts the packet.  Its only effect is the returned
successor state. -/
theorem update_stats_zero_size_total (st : AppState) (t : ℚ)
    (hw : 1 ≤ st.window_size) :
    (updateStats st 0 t).stats.total_bytes = st.stats.total_bytes ∧
    (updateStats st 0 t).stats.packets_captured = st.stats.packets_captured + 1 ∧
    (updateStats st 0 t).throughput_history.getLast? = some { time := t, value := 0 } ∧
    (updateStats st 0 t).packet_size_history.getLast? = some { time := t, value := 0 } := by
  refine ⟨by simp [updateStats], by simp [updateStats], ?_, ?_⟩
  · simp only [updateStats, Nat.cast_zero, zero_div]
    exact getLast?_trimFront_concat st.window_size hw _ _
  · simp only [updateStats, Nat.cast_zero]
    exact getLast?_trimFront_concat st.window_size hw _ _

/-- Witness for C9: recording a zero-byte packet from the initial state. -/
theorem update_stats_zero_size_total_witness :
    1 ≤ AppState.default.window_size ∧
    (updateStats AppState.default 0 0).stats.total_bytes
        = AppState.default.stats.total_bytes ∧
    (updateStats AppState.default 0 0).stats.packets_captured
        = AppState.default.stats.packets_captured + 1 ∧
    (updateStats AppState.default 0 0).throughput_history.getLast?
        = some { time := 0, value := 0 } ∧
    (updateStats AppState.default 0 0).packet_size_history.getLast?
        = some { time := 0, value := 0 } :=
  ⟨by decide, (update_stats_zero_size_total AppState.default 0 (by decide)).1,
    (update_stats_zero_size_total AppState.default 0 (by decide)).2.1,
    (update_stats_zero_size_total AppState.default 0 (by decide)).2.2.1,
    (update_stats_zero_size_total AppState.default 0 (by decide)).2.2.2⟩

/-- Claim C10 (implicit): after every sequence of `record_packet` calls from
the initial state, the two histories have equal length and the samples at
each position carry identical time fields — each call appends one sample
with the same elapsed stamp to both and trims both against the same
`window_size`. -/
theorem histories_aligned (calls : List (Nat × ℚ)) :
    (runPackets AppState.default calls).throughput_history.length
        = (runPackets AppState.default calls).packet_size_history.length ∧
    (runPackets AppState.default calls).throughput_history.map DataPoint.time
        = (runPackets AppState.default calls).packet_size_history.map DataPoint.time := by
  have htimes : (runPackets AppState.default calls).throughput_history.map DataPoint.time
      = (runPackets AppState.default calls).packet_size_history.map DataPoint.time := by
    rw [runPackets_eq_runTrace]
    exact runTrace_times_eq _ AppState.default (by simp [AppState.default])
  refine ⟨?_, htimes⟩
  have := congrArg List.length htimes
  simpa using this
